import Mathlib

/-
Verification of the goose agent core against its specification.

The development shallowly embeds the Rust sources:
  crates/goose/src/agents/extension_manager.rs  (extension manager, routing)
  crates/goose/src/agents/agent.rs              (agent reply loop, dispatch)

Rust strings are modelled as lists of characters (type Goose.Name), HashMap
iteration as an association list in an arbitrary order, and async control
flow as explicit state passing.  Fallible operations return Option / Except.
-/

namespace Goose

/-- Extension keys and tool names (Rust String / &str) are modelled as lists
of characters, preserving the exact character operations of the source. -/
abbrev Name := List Char

/-- Whitespace test matching Rust char::is_whitespace, which checks the
Unicode White_Space property (25 code points, listed explicitly here). -/
def isRustWhitespace (c : Char) : Bool :=
  let n := c.toNat
  n == 0x09 || n == 0x0A || n == 0x0B || n == 0x0C || n == 0x0D ||
  n == 0x20 || n == 0x85 || n == 0xA0 || n == 0x1680 ||
  (0x2000 ≤ n && n ≤ 0x200A) ||
  n == 0x2028 || n == 0x2029 || n == 0x202F || n == 0x205F || n == 0x3000

/-- Per-character step of normalize (extension_manager.rs lines 74-84): keep
ASCII alphanumerics together with underscore and hyphen, strip whitespace,
and map every other character to an underscore. -/
def normalizeStep (c : Char) : Option Char :=
  if c.isAlphanum || c == '_' || c == '-' then some c
  else if isRustWhitespace c then none
  else some '_'

/-- Embedding of extension_manager.rs normalize (lines 74-84): the source
builds the filtered string with the per-character match, then lowercases the
whole result.  Rust String::to_lowercase performs Unicode lowercasing, but
the filtered string only ever contains ASCII alphanumerics, underscore and
hyphen, on which it agrees with ASCII Char.toLower. -/
def normalize (input : Name) : Name :=
  (input.filterMap normalizeStep).map Char.toLower

/-- Character set of normalize output claimed by the spec: lowercase ASCII
alphanumerics, underscore and hyphen. -/
def isNormalChar (c : Char) : Bool :=
  c.isLower || c.isDigit || c == '_' || c == '-'

theorem char_toLower_def (c : Char) :
    c.toLower = if c.toNat ≥ 65 ∧ c.toNat ≤ 90 then Char.ofNat (c.toNat + 32) else c := rfl

theorem isUpper_toNat_bounds (c : Char) (h : c.isUpper = true) :
    65 ≤ c.toNat ∧ c.toNat ≤ 90 := by
  unfold Char.isUpper at h
  simp only [Bool.and_eq_true, decide_eq_true_eq] at h
  exact ⟨h.1, h.2⟩

theorem isLower_toNat_bounds (c : Char) (h : c.isLower = true) :
    97 ≤ c.toNat ∧ c.toNat ≤ 122 := by
  unfold Char.isLower at h
  simp only [Bool.and_eq_true, decide_eq_true_eq] at h
  exact ⟨h.1, h.2⟩

theorem isDigit_toNat_bounds (c : Char) (h : c.isDigit = true) :
    48 ≤ c.toNat ∧ c.toNat ≤ 57 := by
  unfold Char.isDigit at h
  simp only [Bool.and_eq_true, decide_eq_true_eq] at h
  exact ⟨h.1, h.2⟩

theorem isNormalChar_toLower_of_alnum (c : Char) (h : c.isAlphanum = true) :
    isNormalChar c.toLower = true := by
  by_cases hup : c.toNat ≥ 65 ∧ c.toNat ≤ 90
  · rw [char_toLower_def, if_pos hup]
    obtain ⟨h1, h2⟩ := hup
    interval_cases h3 : c.toNat <;> decide
  · rw [char_toLower_def, if_neg hup]
    have hu : c.isUpper = false := by
      by_contra hc
      simp only [Bool.not_eq_false] at hc
      exact hup (isUpper_toNat_bounds c hc)
    have halt : ((c.isUpper || c.isLower) || c.isDigit) = true := h
    rw [hu] at halt
    simp only [Bool.false_or, Bool.or_eq_true] at halt
    unfold isNormalChar
    rcases halt with hl | hd
    · simp [hl]
    · simp [hd]

theorem toLower_fixed_of_normal (c : Char) (h : isNormalChar c = true) :
    c.toLower = c := by
  unfold isNormalChar at h
  simp only [Bool.or_eq_true, beq_iff_eq] at h
  have hnot : ¬(c.toNat ≥ 65 ∧ c.toNat ≤ 90) := by
    rcases h with ((hl | hd) | he) | he
    · have := isLower_toNat_bounds c hl; omega
    · have := isDigit_toNat_bounds c hd; omega
    · subst he; decide
    · subst he; decide
  rw [char_toLower_def, if_neg hnot]

theorem normalizeStep_keeps_normal (c : Char) (h : isNormalChar c = true) :
    normalizeStep c = some c := by
  unfold isNormalChar at h
  simp only [Bool.or_eq_true, beq_iff_eq] at h
  unfold normalizeStep
  have hcond : (c.isAlphanum || c == '_' || c == '-') = true := by
    rcases h with ((hl | hd) | he) | he
    · have : c.isAlphanum = true := by
        unfold Char.isAlphanum Char.isAlpha
        simp [hl]
      simp [this]
    · have : c.isAlphanum = true := by
        unfold Char.isAlphanum
        simp [hd]
      simp [this]
    · subst he; decide
    · subst he; decide
  rw [if_pos hcond]

theorem normal_not_whitespace (c : Char) (h : isNormalChar c = true) :
    isRustWhitespace c = false := by
  unfold isNormalChar at h
  simp only [Bool.or_eq_true, beq_iff_eq] at h
  have hb : (97 ≤ c.toNat ∧ c.toNat ≤ 122) ∨ (48 ≤ c.toNat ∧ c.toNat ≤ 57) ∨
      c.toNat = 95 ∨ c.toNat = 45 := by
    rcases h with ((hl | hd) | he) | he
    · exact Or.inl (isLower_toNat_bounds c hl)
    · exact Or.inr (Or.inl (isDigit_toNat_bounds c hd))
    · subst he; right; right; left; rfl
    · subst he; right; right; right; rfl
  rw [Bool.eq_false_iff]
  intro hw
  unfold isRustWhitespace at hw
  simp only [Bool.or_eq_true, Bool.and_eq_true, beq_iff_eq, decide_eq_true_eq] at hw
  omega

theorem normalizeStep_output (c d : Char) (h : normalizeStep c = some d) :
    d.isAlphanum = true ∨ d = '_' ∨ d = '-' := by
  unfold normalizeStep at h
  split at h
  · rename_i hcond
    injection h with h
    subst h
    simp only [Bool.or_eq_true, beq_iff_eq] at hcond
    rcases hcond with (ha | he) | he
    · exact Or.inl ha
    · exact Or.inr (Or.inl he)
    · exact Or.inr (Or.inr he)
  · split at h
    · exact absurd h (by simp)
    · injection h with h
      subst h
      exact Or.inr (Or.inl rfl)

theorem mem_normalize_isNormalChar (s : Name) (c : Char) (hc : c ∈ normalize s) :
    isNormalChar c = true := by
  unfold normalize at hc
  obtain ⟨d, hd, rfl⟩ := List.mem_map.mp hc
  obtain ⟨a, _, ha⟩ := List.mem_filterMap.mp hd
  rcases normalizeStep_output a d ha with h | h | h
  · exact isNormalChar_toLower_of_alnum d h
  · subst h; decide
  · subst h; decide

theorem normalize_fixed_of_all_normal (l : List Char)
    (h : ∀ c ∈ l, isNormalChar c = true) : normalize l = l := by
  induction l with
  | nil => rfl
  | cons a t ih =>
    have ha := h a (List.mem_cons_self a t)
    have ht : normalize t = t := ih (fun c hc => h c (List.mem_cons_of_mem a hc))
    unfold normalize at ht ⊢
    rw [List.filterMap_cons, normalizeStep_keeps_normal a ha, List.map_cons,
      toLower_fixed_of_normal a ha, ht]

/-- C9: the extension-key normalisation is idempotent for every input
(unicode included), and its output contains only lowercase ASCII
alphanumerics, underscore and hyphen, with no whitespace character
surviving. -/
theorem normalize_idempotent_and_charset (s : Name) :
    normalize (normalize s) = normalize s ∧
    ∀ c ∈ normalize s, isNormalChar c = true ∧ isRustWhitespace c = false := by
  constructor
  · exact normalize_fixed_of_all_normal _ (mem_normalize_isNormalChar s)
  · intro c hc
    have h := mem_normalize_isNormalChar s c hc
    exact ⟨h, normal_not_whitespace c h⟩

/-- Witness for C9: evaluation on the concrete unicode input "My Ext 🚀". -/
theorem normalize_idempotent_and_charset_witness :
    normalize (normalize ['M', 'y', ' ', 'E', 'x', 't', ' ', '🚀']) =
      normalize ['M', 'y', ' ', 'E', 'x', 't', ' ', '🚀'] ∧
    isNormalChar 'm' = true ∧ isRustWhitespace 'm' = false := by
  refine ⟨(normalize_idempotent_and_charset ['M', 'y', ' ', 'E', 'x', 't', ' ', '🚀']).1, ?_⟩
  have h := (normalize_idempotent_and_charset ['M', 'y', ' ', 'E', 'x', 't', ' ', '🚀']).2
    'm' (by decide)
  exact h

end Goose

namespace Goose

/-- Model of one MCP client as the extension manager sees it: the tools it
exposes (unprefixed names).  Transport and protocol details are irrelevant
to the routing and lifecycle claims. -/
structure McpClient where
  tools : List Name
deriving DecidableEq

/-- State of the extension manager (extension_manager.rs lines 33-37).  The
HashMap clients is modelled as an association list whose order stands for
the unspecified HashMap iteration order. -/
structure ExtensionManager where
  clients : List (Name × McpClient)
  instructions : List (Name × Name)
  resource_capable_extensions : List Name
deriving DecidableEq

/-- Key list of an association table. -/
def keys {α : Type} (l : List (Name × α)) : List Name := l.map Prod.fst

/-- Removal of every entry with the given key, as HashMap::remove. -/
def eraseKey {α : Type} (k : Name) (l : List (Name × α)) : List (Name × α) :=
  l.filter (fun p => decide (p.1 ≠ k))

/-- Insertion overwriting any previous entry, as HashMap::insert. -/
def insertAssoc {α : Type} (k : Name) (v : α) (l : List (Name × α)) : List (Name × α) :=
  (k, v) :: eraseKey k l

/-- Insertion into a key set, as HashSet::insert. -/
def insertSet (k : Name) (s : List Name) : List Name :=
  if k ∈ s then s else k :: s

/-- Removal from a key set, as HashSet::remove. -/
def removeSet (k : Name) (s : List Name) : List Name :=
  s.filter (fun x => decide (x ≠ k))

theorem mem_keys_eraseKey {α : Type} (k j : Name) (l : List (Name × α)) :
    j ∈ keys (eraseKey k l) ↔ j ∈ keys l ∧ j ≠ k := by
  unfold keys eraseKey
  rw [List.mem_map]
  constructor
  · intro h
    obtain ⟨p, hp, hpj⟩ := h
    rw [List.mem_filter] at hp
    obtain ⟨hpl, hne⟩ := hp
    rw [decide_eq_true_eq] at hne
    subst hpj
    exact ⟨List.mem_map.mpr ⟨p, hpl, rfl⟩, hne⟩
  · intro h
    obtain ⟨hjl, hne⟩ := h
    obtain ⟨p, hp, hpj⟩ := List.mem_map.mp hjl
    subst hpj
    exact ⟨p, List.mem_filter.mpr ⟨hp, decide_eq_true hne⟩, rfl⟩

theorem mem_keys_insertAssoc {α : Type} (k j : Name) (v : α) (l : List (Name × α)) :
    j ∈ keys (insertAssoc k v l) ↔ j = k ∨ j ∈ keys l := by
  unfold insertAssoc
  show j ∈ keys ((k, v) :: eraseKey k l) ↔ _
  unfold keys
  rw [List.map_cons, List.mem_cons]
  show j = k ∨ j ∈ keys (eraseKey k l) ↔ _
  rw [mem_keys_eraseKey]
  constructor
  · rintro (h | ⟨h1, h2⟩)
    · exact Or.inl h
    · exact Or.inr h1
  · intro h
    by_cases hjk : j = k
    · exact Or.inl hjk
    · rcases h with h | h
      · exact Or.inl h
      · exact Or.inr ⟨h, hjk⟩

theorem mem_insertSet (k j : Name) (s : List Name) :
    j ∈ insertSet k s ↔ j = k ∨ j ∈ s := by
  unfold insertSet
  split
  · rename_i hk
    constructor
    · exact Or.inr
    · rintro (rfl | hj)
      · exact hk
      · exact hj
  · rw [List.mem_cons]

theorem mem_removeSet (k j : Name) (s : List Name) :
    j ∈ removeSet k s ↔ j ∈ s ∧ j ≠ k := by
  unfold removeSet
  simp only [List.mem_filter, decide_eq_true_eq]

/-- Outcome of the fallible prelude of add_extension (extension_manager.rs
lines 120-281): secret resolution, transport start, client connect, and
initialize.  In the source every one of these can fail, and they all run
before any of the three tables is touched. -/
inductive InitOutcome where
  | setupFailure
  | initFailure
  | initialized (instructions : Option Name) (resourceCapable : Bool) (client : McpClient)
deriving DecidableEq

/-- Error kinds surfaced by add_extension. -/
inductive ExtensionErrorKind where
  | setup
  | initialization
deriving DecidableEq

/-- Embedding of add_extension (extension_manager.rs lines 116-297) in
state-passing style: the pair is (returned result, manager state after the
call).  On the success path the source inserts instructions (when present),
the resource capability (when reported), and the client, all under the
sanitized key. -/
def ExtensionManager.addExtension (m : ExtensionManager) (configKey : Name)
    (outcome : InitOutcome) : Except ExtensionErrorKind Unit × ExtensionManager :=
  let sanitized := normalize configKey
  match outcome with
  | .setupFailure => (.error .setup, m)
  | .initFailure => (.error .initialization, m)
  | .initialized ins res client =>
    let m1 : ExtensionManager :=
      { m with instructions := match ins with
          | some s => insertAssoc sanitized s m.instructions
          | none => m.instructions }
    let m2 : ExtensionManager :=
      { m1 with resource_capable_extensions :=
          if res then insertSet sanitized m1.resource_capable_extensions
          else m1.resource_capable_extensions }
    (.ok (), { m2 with clients := insertAssoc sanitized client m2.clients })

/-- Embedding of remove_extension (extension_manager.rs lines 312-319):
drops the sanitized key from all three tables; always succeeds. -/
def ExtensionManager.removeExtension (m : ExtensionManager) (name : Name) :
    ExtensionManager :=
  let sanitized := normalize name
  { clients := eraseKey sanitized m.clients,
    instructions := eraseKey sanitized m.instructions,
    resource_capable_extensions := removeSet sanitized m.resource_capable_extensions }

/-- The empty manager (ExtensionManager::new). -/
def ExtensionManager.empty : ExtensionManager := ⟨[], [], []⟩

/-- One lifecycle operation on the manager. -/
inductive ManagerOp where
  | add (key : Name) (outcome : InitOutcome)
  | remove (key : Name)

/-- Application of one operation; a failing add leaves the state that
add_extension returned, which is the untouched manager. -/
def applyOp (m : ExtensionManager) (op : ManagerOp) : ExtensionManager :=
  match op with
  | .add k o => (m.addExtension k o).2
  | .remove k => m.removeExtension k

/-- Application of a sequence of lifecycle operations. -/
def applyOps (m : ExtensionManager) (ops : List ManagerOp) : ExtensionManager :=
  ops.foldl applyOp m

/-- Consistency of the three tables: instructions keys and resource-capable
keys are contained in the client keys. -/
def consistent (m : ExtensionManager) : Prop :=
  (∀ k ∈ keys m.instructions, k ∈ keys m.clients) ∧
  (∀ k ∈ m.resource_capable_extensions, k ∈ keys m.clients)

theorem applyOp_add_initialized (m : ExtensionManager) (k : Name)
    (ins : Option Name) (res : Bool) (client : McpClient) :
    applyOp m (.add k (.initialized ins res client)) =
    { clients := insertAssoc (normalize k) client m.clients,
      instructions := match ins with
        | some s => insertAssoc (normalize k) s m.instructions
        | none => m.instructions,
      resource_capable_extensions :=
        if res then insertSet (normalize k) m.resource_capable_extensions
        else m.resource_capable_extensions } := rfl

theorem applyOp_remove (m : ExtensionManager) (k : Name) :
    applyOp m (.remove k) =
    { clients := eraseKey (normalize k) m.clients,
      instructions := eraseKey (normalize k) m.instructions,
      resource_capable_extensions := removeSet (normalize k) m.resource_capable_extensions } :=
  rfl

theorem consistent_applyOp (m : ExtensionManager) (op : ManagerOp)
    (h : consistent m) : consistent (applyOp m op) := by
  obtain ⟨hins, hres⟩ := h
  cases op with
  | add k o =>
    cases o with
    | setupFailure => exact ⟨hins, hres⟩
    | initFailure => exact ⟨hins, hres⟩
    | initialized ins res client =>
      rw [applyOp_add_initialized]
      constructor
      · intro j hj
        rw [mem_keys_insertAssoc]
        cases ins with
        | none => exact Or.inr (hins j hj)
        | some s =>
          have hj2 : j ∈ keys (insertAssoc (normalize k) s m.instructions) := hj
          rw [mem_keys_insertAssoc] at hj2
          rcases hj2 with rfl | hj2
          · exact Or.inl rfl
          · exact Or.inr (hins j hj2)
      · intro j hj
        rw [mem_keys_insertAssoc]
        cases res with
        | true =>
          have hj2 : j ∈ insertSet (normalize k) m.resource_capable_extensions := hj
          rw [mem_insertSet] at hj2
          rcases hj2 with rfl | hj2
          · exact Or.inl rfl
          · exact Or.inr (hres j hj2)
        | false =>
          exact Or.inr (hres j hj)
  | remove k =>
    rw [applyOp_remove]
    constructor
    · intro j hj
      rw [mem_keys_eraseKey] at hj ⊢
      exact ⟨hins j hj.1, hj.2⟩
    · intro j hj
      rw [mem_removeSet] at hj
      rw [mem_keys_eraseKey]
      exact ⟨hres j hj.1, hj.2⟩

/-- C3: after any sequence of add_extension and remove_extension operations
starting from the empty manager, the key set of the instructions map and
the resource-capable set are each contained in the key set of the client
map. -/
theorem manager_tables_consistent (ops : List ManagerOp) :
    consistent (applyOps ExtensionManager.empty ops) := by
  have hstep : ∀ (m : ExtensionManager) (l : List ManagerOp), consistent m →
      consistent (applyOps m l) := by
    intro m l
    induction l generalizing m with
    | nil => exact fun h => h
    | cons op t ih =>
      intro h
      exact ih (applyOp m op) (consistent_applyOp m op h)
  refine hstep ExtensionManager.empty ops ?_
  constructor
  · intro k hk
    simp [ExtensionManager.empty, keys] at hk
  · intro k hk
    simp [ExtensionManager.empty] at hk

/-- Witness for C3: the invariant evaluated after a concrete add, add-fail,
remove sequence. -/
theorem manager_tables_consistent_witness :
    consistent (applyOps ExtensionManager.empty
      [ManagerOp.add ['A'] (.initialized (some ['i']) true ⟨[['t']]⟩),
       ManagerOp.add ['b'] .initFailure,
       ManagerOp.remove ['a']]) :=
  manager_tables_consistent
    [ManagerOp.add ['A'] (.initialized (some ['i']) true ⟨[['t']]⟩),
     ManagerOp.add ['b'] .initFailure,
     ManagerOp.remove ['a']]

/-- C7: whenever add_extension fails, in particular with the initialization
error, the manager state is unchanged: nothing was inserted into the client
map, the instructions map, or the resource-capable set. -/
theorem add_extension_failure_state_unchanged (m : ExtensionManager)
    (configKey : Name) (outcome : InitOutcome) (e : ExtensionErrorKind)
    (h : (m.addExtension configKey outcome).1 = .error e) :
    (m.addExtension configKey outcome).2 = m := by
  cases outcome with
  | setupFailure => rfl
  | initFailure => rfl
  | initialized ins res client =>
    exact absurd h (by simp [ExtensionManager.addExtension])

/-- Witness for C7: a concrete failing initialization leaves a concrete
manager unchanged. -/
theorem add_extension_failure_state_unchanged_witness :
    ((ExtensionManager.addExtension ⟨[(['a'], ⟨[]⟩)], [], []⟩ ['b'] .initFailure).1
        = .error .initialization) ∧
    (ExtensionManager.addExtension ⟨[(['a'], ⟨[]⟩)], [], []⟩ ['b'] .initFailure).2
      = ⟨[(['a'], ⟨[]⟩)], [], []⟩ :=
  ⟨rfl,
   add_extension_failure_state_unchanged ⟨[(['a'], ⟨[]⟩)], [], []⟩ ['b'] .initFailure
     .initialization rfl⟩

end Goose

namespace Goose

/-- Prefixed tool name key__tool exposed to the model (spec section 3,
extension_manager.rs line 383). -/
def prefixedName (key tool : Name) : Name := key ++ '_' :: '_' :: tool

/-- Embedding of Rust str::strip_prefix: the remainder when pre is a prefix
of s, none otherwise. -/
def stripPre (s pre : Name) : Option Name :=
  if pre.isPrefixOf s then some (s.drop pre.length) else none

/-- Embedding of get_client_for_tool (extension_manager.rs lines 472-477):
the first client in HashMap iteration order whose key is a plain prefix of
the prefixed tool name.  The source imposes no key followed by "__"
requirement and performs no longest-match selection. -/
def ExtensionManager.getClientForTool (m : ExtensionManager) (prefixedToolName : Name) :
    Option (Name × McpClient) :=
  m.clients.find? (fun p => p.1.isPrefixOf prefixedToolName)

/-- Routing of dispatch_tool_call (extension_manager.rs lines 642-667):
select the owning client, strip its key, then strip "__"; none models the
ToolError::NotFound returns.  On success the pair is (owning key, invoked
tool name). -/
def ExtensionManager.dispatchRoute (m : ExtensionManager) (callName : Name) :
    Option (Name × Name) :=
  match m.getClientForTool callName with
  | none => none
  | some (clientName, _) =>
    match stripPre callName clientName with
    | none => none
    | some rest =>
      match stripPre rest ['_', '_'] with
      | none => none
      | some toolName => some (clientName, toolName)

/-- All tools of all clients under their prefixed names
(extension_manager.rs lines 358-416, flattened over pagination). -/
def ExtensionManager.getPrefixedTools (m : ExtensionManager) : List Name :=
  m.clients.flatMap (fun p => p.2.tools.map (fun t => prefixedName p.1 t))

/-- Client of key "a__b" in the C1 counterexample, exposing tool "t". -/
def clientAB : McpClient := ⟨[['t']]⟩

/-- Client of key "a" in the C1 counterexample. -/
def clientA : McpClient := ⟨[]⟩

/-- Manager with registered keys "a" and "a__b", one a prefix of the other,
in this iteration order. -/
def mgrShadow : ExtensionManager :=
  { clients := [(['a'], clientA), (['a', '_', '_', 'b'], clientAB)],
    instructions := [],
    resource_capable_extensions := [] }

/-- C1 counterexample: extension "a__b" exposes tool "t", keys "a" and
"a__b" are both registered, yet dispatching the prefixed name "a__b__t"
routes to extension "a" with stripped tool name "b__t" instead of routing
to "a__b" with stripped name "t": selection is first plain-prefix match in
iteration order, not longest key-prefix match on key + "__". -/
theorem dispatch_longest_match_counterexample :
    (['a', '_', '_', 'b'], clientAB) ∈ mgrShadow.clients ∧
    ['t'] ∈ clientAB.tools ∧
    mgrShadow.dispatchRoute (prefixedName ['a', '_', '_', 'b'] ['t'])
      = some (['a'], ['b', '_', '_', 't']) ∧
    mgrShadow.dispatchRoute (prefixedName ['a', '_', '_', 'b'] ['t'])
      ≠ some (['a', '_', '_', 'b'], ['t']) := by
  refine ⟨by decide, by decide, by decide, by decide⟩

theorem find_first_matching {α : Type} (P : Name × α → Bool) (l : List (Name × α)) (k : Name)
    (hk : k ∈ keys l) (hP : ∀ p ∈ l, P p = true → p.1 = k)
    (hkP : ∀ v : α, P (k, v) = true) :
    ∃ c, l.find? P = some (k, c) := by
  induction l with
  | nil => simp [keys] at hk
  | cons p t ih =>
    by_cases hp : P p = true
    · have hpk : p.1 = k := hP p (List.mem_cons_self p t) hp
      refine ⟨p.2, ?_⟩
      rw [List.find?_cons_of_pos t hp]
      cases p with
      | mk p1 p2 => simp only at hpk; rw [hpk]
    · rw [List.find?_cons_of_neg t (by simpa using hp)]
      have hkt : k ∈ keys t := by
        unfold keys at hk
        rw [List.map_cons, List.mem_cons] at hk
        rcases hk with hk1 | hk2
        · exact absurd (hk1 ▸ hkP p.2) (by
            cases p with
            | mk p1 p2 => simp only at hk1; rw [← hk1] at hp ⊢; exact hp)
        · exact hk2
      exact ih hkt (fun q hq => hP q (List.mem_cons_of_mem p hq))

/-- C1 (amended): get_client_for_tool selects the first registered key in
HashMap iteration order that is a plain prefix of the call name.  Whenever
k is the only registered key that is a prefix of k__t, dispatching k__t
routes to extension k and the stripped tool name is exactly t. -/
theorem dispatch_unique_prefix_roundtrip (m : ExtensionManager) (k t : Name)
    (hk : k ∈ keys m.clients)
    (huniq : ∀ p ∈ m.clients, p.1.isPrefixOf (prefixedName k t) = true → p.1 = k) :
    m.dispatchRoute (prefixedName k t) = some (k, t) := by
  have hpre : k.isPrefixOf (prefixedName k t) = true := by
    rw [ List.isPrefixOf_iff_prefix]
    exact List.prefix_append k ('_' :: '_' :: t)
  obtain ⟨c, hfind⟩ :=
    find_first_matching (fun p => p.1.isPrefixOf (prefixedName k t)) m.clients k hk huniq
      (fun _ => hpre)
  have h1 : stripPre (prefixedName k t) k = some ('_' :: '_' :: t) := by
    unfold stripPre
    rw [if_pos hpre]
    unfold prefixedName
    rw [List.drop_left]
  have h2 : stripPre ('_' :: '_' :: t) ['_', '_'] = some t := by
    unfold stripPre
    rw [if_pos (by simp [List.isPrefixOf])]
    rfl
  unfold ExtensionManager.dispatchRoute ExtensionManager.getClientForTool
  simp only [hfind, h1, h2]

/-- Witness for C1 (amended): a single extension "e" exposing tool "t"
resolves the dispatch of "e__t" to ("e", "t"). -/
theorem dispatch_unique_prefix_roundtrip_witness :
    ExtensionManager.dispatchRoute ⟨[(['e'], ⟨[['t']]⟩)], [], []⟩ (prefixedName ['e'] ['t'])
      = some (['e'], ['t']) :=
  dispatch_unique_prefix_roundtrip ⟨[(['e'], ⟨[['t']]⟩)], [], []⟩ ['e'] ['t']
    (by decide) (by decide)

end Goose

namespace Goose

/-- Minimal model of serde_json values: only string leaves and objects are
inspected by the embedded code paths. -/
inductive Json where
  | str (s : String)
  | obj (fields : List (String × Json))
  | other

/-- Field access, as serde_json Value::get on objects. -/
def Json.get : Json → String → Option Json
  | .obj fields, key => fields.lookup key
  | _, _ => none

/-- String extraction, as serde_json Value::as_str. -/
def Json.asStr : Json → Option String
  | .str s => some s
  | _ => none

/-- JSON-RPC messages carried on the MCP notification channel: only the
Notification variant with its params is inspected by the drain block. -/
inductive JsonRpcMessage where
  | notification (params : Option Json)
  | response

/-- Extraction applied to each drained message (agent.rs lines 729-747):
only a JSON-RPC notification whose params carry data.subagent_id and
data.message as strings yields an McpNotification event, tagged with the
subagent id. -/
def subagentEventOf (m : JsonRpcMessage) : Option (String × JsonRpcMessage) :=
  match m with
  | .notification (some params) =>
    match params.get "data" with
    | some data =>
      match (data.get "subagent_id").bind Json.asStr, (data.get "message").bind Json.asStr with
      | some sid, some _ => some (sid, m)
      | _, _ => none
    | none => none
  | _ => none

/-- Embedding of the drain-and-emit block at the start of each reply turn
(agent.rs lines 727-747 together with get_mcp_notifications lines
1015-1024): every pending channel message is drained, and each matching one
yields one event. -/
def drainSubagentEvents (pending : List JsonRpcMessage) : List (String × JsonRpcMessage) :=
  pending.filterMap subagentEventOf

/-- Notification whose data carries a subagent id but no message field. -/
def notificationWithoutMessage : JsonRpcMessage :=
  .notification (some (.obj [("data", .obj [("subagent_id", .str "sub-1")])]))

/-- C10 counterexample: a notification emitted on the MCP channel whose data
lacks the message string is drained at the start of the turn but yields no
McpNotification event at all; it is silently discarded, so the notification
is lost. -/
theorem subagent_notification_dropped_counterexample :
    subagentEventOf notificationWithoutMessage = none ∧
    drainSubagentEvents [notificationWithoutMessage] = [] := by
  refine ⟨rfl, rfl⟩

/-- C10 (amended): every drained notification that is a JSON-RPC
notification carrying data.subagent_id and data.message as strings is
yielded as an McpNotification event tagged with that subagent id; messages
of any other shape are silently discarded. -/
theorem subagent_notifications_lifted (pending : List JsonRpcMessage)
    (m : JsonRpcMessage) (params data : Json) (sid msg : String)
    (hm : m ∈ pending)
    (hshape : m = .notification (some params))
    (hdata : params.get "data" = some data)
    (hsid : data.get "subagent_id" = some (.str sid))
    (hmsg : data.get "message" = some (.str msg)) :
    (sid, m) ∈ drainSubagentEvents pending := by
  unfold drainSubagentEvents
  rw [List.mem_filterMap]
  refine ⟨m, hm, ?_⟩
  subst hshape
  unfold subagentEventOf
  simp only [hdata, hsid, hmsg, Json.asStr, Option.bind]

/-- Witness for C10 (amended): a concrete well-formed subagent notification
is lifted with its id. -/
theorem subagent_notifications_lifted_witness :
    ("sub-9", JsonRpcMessage.notification (some (.obj [("data",
        .obj [("subagent_id", .str "sub-9"), ("message", .str "hi")])])))
      ∈ drainSubagentEvents [JsonRpcMessage.notification (some (.obj [("data",
          .obj [("subagent_id", .str "sub-9"), ("message", .str "hi")])]))] :=
  subagent_notifications_lifted
    [JsonRpcMessage.notification (some (.obj [("data",
        .obj [("subagent_id", .str "sub-9"), ("message", .str "hi")])]))]
    (JsonRpcMessage.notification (some (.obj [("data",
        .obj [("subagent_id", .str "sub-9"), ("message", .str "hi")])])))
    (.obj [("data", .obj [("subagent_id", .str "sub-9"), ("message", .str "hi")])])
    (.obj [("subagent_id", .str "sub-9"), ("message", .str "hi")])
    "sub-9" "hi"
    (List.mem_cons_self _ _) rfl rfl rfl rfl

end Goose

namespace Goose

/-- One tool request of a turn: request id, prefixed tool name, arguments. -/
structure ToolRequestRec where
  id : String
  name : String
  args : Json

/-- Platform tool name for extension management (spec section 6). -/
def PLATFORM_MANAGE_EXTENSIONS_TOOL_NAME : String := "platform__manage_extensions"

/-- Modelled from the spec: check_tool_permissions (permission_judge, not
under src/) also returns the set of request ids that are enable-extension
calls, i.e. platform__manage_extensions with action "enable" (spec sections
4.3 and 6). -/
def enableExtensionRequestIds (requests : List ToolRequestRec) : List String :=
  (requests.filter (fun r =>
    r.name == PLATFORM_MANAGE_EXTENSIONS_TOOL_NAME &&
    ((r.args.get "action").bind Json.asStr == some "enable"))).map (fun r => r.id)

/-- One dispatched result observed on the merged tool stream: the request id
it answers and whether the final output was an error (agent.rs lines
933-946). -/
structure DispatchedResult where
  requestId : String
  isError : Bool

/-- Embedding of the all_install_successful accumulator (agent.rs lines
931-947): it starts true and is cleared exactly when a result for an
enable-extension request id arrives as an error.  The loop then rebuilds
tools, toolshim tools and system prompt iff this flag is still true
(agent.rs lines 949-951). -/
def allInstallSuccessful (enableIds : List String)
    (outcomes : List DispatchedResult) : Bool :=
  outcomes.foldl
    (fun acc r => if enableIds.contains r.requestId && r.isError then false else acc) true

/-- Requests of the C5 counterexample: two enable-extension calls. -/
def enableReqOne : ToolRequestRec :=
  ⟨"1", PLATFORM_MANAGE_EXTENSIONS_TOOL_NAME,
    .obj [("action", .str "enable"), ("extension_name", .str "git")]⟩

/-- Second enable-extension request of the C5 counterexample. -/
def enableReqTwo : ToolRequestRec :=
  ⟨"2", PLATFORM_MANAGE_EXTENSIONS_TOOL_NAME,
    .obj [("action", .str "enable"), ("extension_name", .str "broken")]⟩

/-- C5 counterexample: the turn contains two enable-extension requests; the
one with id "1" succeeded, the one with id "2" failed.  The claim requires a
rebuild because some enable succeeded, but the source clears
all_install_successful on the failed one and skips the rebuild. -/
theorem enable_extension_rebuild_counterexample :
    enableExtensionRequestIds [enableReqOne, enableReqTwo] = ["1", "2"] ∧
    allInstallSuccessful ["1", "2"] [⟨"1", false⟩, ⟨"2", true⟩] = false := by
  refine ⟨rfl, rfl⟩

theorem allInstallSuccessful_of_no_enable_error (enableIds : List String)
    (outcomes : List DispatchedResult)
    (h : ∀ r ∈ outcomes, r.requestId ∈ enableIds → r.isError = false) :
    allInstallSuccessful enableIds outcomes = true := by
  unfold allInstallSuccessful
  induction outcomes with
  | nil => rfl
  | cons r t ih =>
    rw [List.foldl_cons]
    have hcond : (enableIds.contains r.requestId && r.isError) = false := by
      by_cases hc : r.requestId ∈ enableIds
      · rw [h r (List.mem_cons_self r t) hc, Bool.and_false]
      · have : enableIds.contains r.requestId = false := by
          rw [Bool.eq_false_iff]
          intro hcon
          exact hc (by simpa using hcon)
        rw [this, Bool.false_and]
    rw [hcond]
    show List.foldl _ true t = true
    exact ih (fun q hq => h q (List.mem_cons_of_mem r hq))

theorem getPrefixedTools_after_add (m : ExtensionManager) (cfgKey : Name)
    (ins : Option Name) (res : Bool) (client : McpClient) (t : Name)
    (ht : t ∈ client.tools) :
    prefixedName (normalize cfgKey) t ∈
      ((m.addExtension cfgKey (.initialized ins res client)).2).getPrefixedTools := by
  unfold ExtensionManager.getPrefixedTools
  rw [List.mem_flatMap]
  refine ⟨(normalize cfgKey, client), ?_, List.mem_map.mpr ⟨t, ht, rfl⟩⟩
  show (normalize cfgKey, client) ∈ insertAssoc (normalize cfgKey) client m.clients
  exact List.mem_cons_self _ _

/-- C5 (amended): the loop rebuilds tools, toolshim tools and the system
prompt after a turn iff no dispatched enable-extension request returned an
error.  In particular, when an enable-extension call succeeded and every
other enable-extension result in the turn also succeeded, the rebuild runs
even when non-enable requests failed, and the rebuilt tool list contains
every tool of the newly enabled extension under its normalized key prefix. -/
theorem enable_extension_rebuild_amended (enableIds : List String)
    (outcomes : List DispatchedResult)
    (h : ∀ r ∈ outcomes, r.requestId ∈ enableIds → r.isError = false)
    (m : ExtensionManager) (cfgKey : Name) (ins : Option Name) (res : Bool)
    (client : McpClient) :
    allInstallSuccessful enableIds outcomes = true ∧
    ∀ t ∈ client.tools,
      prefixedName (normalize cfgKey) t ∈
        ((m.addExtension cfgKey (.initialized ins res client)).2).getPrefixedTools :=
  ⟨allInstallSuccessful_of_no_enable_error enableIds outcomes h,
   fun t ht => getPrefixedTools_after_add m cfgKey ins res client t ht⟩

/-- Witness for C5 (amended): one successful enable with id "1" and one
failed ordinary request with id "9"; the rebuild flag stays set and the tool
list of the grown manager contains the prefixed tool. -/
theorem enable_extension_rebuild_amended_witness :
    allInstallSuccessful ["1"] [⟨"1", false⟩, ⟨"9", true⟩] = true ∧
    ∀ t ∈ McpClient.tools ⟨[['t']]⟩,
      prefixedName (normalize ['g']) t ∈
        ((ExtensionManager.addExtension ⟨[], [], []⟩ ['g']
          (.initialized none false ⟨[['t']]⟩)).2).getPrefixedTools :=
  enable_extension_rebuild_amended ["1"] [⟨"1", false⟩, ⟨"9", true⟩]
    (by
      intro r hr hmem
      rcases List.mem_cons.mp hr with rfl | hr2
      · rfl
      · rcases List.mem_cons.mp hr2 with rfl | hr3
        · exact absurd hmem (by decide)
        · exact absurd hr3 (List.not_mem_nil _))
    ⟨[], [], []⟩ ['g'] none false ⟨[['t']]⟩

end Goose

namespace Goose

/-- Embedding of the goose_mode resolution (agent.rs lines 678-695): the
GOOSE_MODE config parameter (default "auto") is overridden by the session
execution_mode, "foreground" mapping to "auto", "background" to "chat", and
anything else keeping the configured mode. -/
def effectiveGooseMode (configMode : Option String) (executionMode : Option String) : String :=
  let base := configMode.getD "auto"
  match executionMode with
  | some em =>
    if em = "foreground" then "auto"
    else if em = "background" then "chat"
    else base
  | none => base

/-- Modelled from the spec: the constant CHAT_MODE_TOOL_SKIPPED_RESPONSE is
defined in tool_execution.rs, which is not under src/; the claims only need
it as a distinguished placeholder value. -/
def CHAT_MODE_TOOL_SKIPPED_RESPONSE : String :=
  "The tool call is skipped in chat mode"

/-- Embedding of the remaining-requests phase (agent.rs lines 843-952)
restricted to the mode decision: in chat mode every remaining request
receives the skipped placeholder in the bundled tool-response message and
nothing is dispatched; any other mode defers to the permission-gate path,
kept abstract here as elseBranch.  The first component is the list of
(request id, response text) pairs accumulated into the bundled user
message, the second the list of requests handed to dispatch. -/
def processRemainingRequests (mode : String) (remaining : List ToolRequestRec)
    (elseBranch : Unit → List (String × String) × List ToolRequestRec) :
    List (String × String) × List ToolRequestRec :=
  if mode = "chat" then
    (remaining.map (fun r => (r.id, CHAT_MODE_TOOL_SKIPPED_RESPONSE)), [])
  else elseBranch ()

/-- C8: with a background execution mode (and likewise whenever the
effective mode is chat), every remaining non-frontend tool request of the
turn receives the chat-mode skipped placeholder keyed by its request id in
the bundled user tool-response message, and no request at all is dispatched
to an extension or built-in handler, whatever the permission-gate path
would have done. -/
theorem chat_mode_skips_all_tool_requests (configMode : Option String)
    (remaining : List ToolRequestRec)
    (elseBranch : Unit → List (String × String) × List ToolRequestRec) :
    effectiveGooseMode configMode (some "background") = "chat" ∧
    processRemainingRequests (effectiveGooseMode configMode (some "background"))
        remaining elseBranch
      = (remaining.map (fun r => (r.id, CHAT_MODE_TOOL_SKIPPED_RESPONSE)), []) ∧
    (processRemainingRequests (effectiveGooseMode configMode (some "background"))
        remaining elseBranch).2 = [] := by
  have hmode : effectiveGooseMode configMode (some "background") = "chat" := by
    unfold effectiveGooseMode
    simp
  refine ⟨hmode, ?_, ?_⟩
  · rw [hmode]
    unfold processRemainingRequests
    rw [if_pos rfl]
  · rw [hmode]
    unfold processRemainingRequests
    rw [if_pos rfl]

end Goose

namespace Goose

/-- Result of one tool call: content payload (modelled as a string) or an
execution-error message. -/
abbrev ToolOutcome := Except String String

/-- Remaining built-in tool names consulted by Agent::dispatch_tool_call
(platform_tools, router_tools, subagent_tools, final_output_tool; the
names are fixed in spec section 6). -/
def PLATFORM_MANAGE_SCHEDULE_TOOL_NAME : String := "platform__manage_schedule"

/-- Name of the read-resource platform tool. -/
def PLATFORM_READ_RESOURCE_TOOL_NAME : String := "platform__read_resource"

/-- Name of the list-resources platform tool. -/
def PLATFORM_LIST_RESOURCES_TOOL_NAME : String := "platform__list_resources"

/-- Name of the search-available-extensions platform tool. -/
def PLATFORM_SEARCH_AVAILABLE_EXTENSIONS_TOOL_NAME : String :=
  "platform__search_available_extensions"

/-- Name of the subagent tool. -/
def SUBAGENT_RUN_TASK_TOOL_NAME : String := "subagent__run_task"

/-- Name of the router vector-search tool. -/
def ROUTER_VECTOR_SEARCH_TOOL_NAME : String := "router__vector_search"

/-- Name of the router llm-search tool. -/
def ROUTER_LLM_SEARCH_TOOL_NAME : String := "router__llm_search"

/-- Name of the final-output tool. -/
def FINAL_OUTPUT_TOOL_NAME : String := "final_output"

/-- Environment of Agent::dispatch_tool_call (agent.rs lines 227-368): the
outcome each sub-handler would produce for the call, the classifying
predicates, and the state flags the branches consult. -/
structure DispatchEnv where
  monitorRejects : Bool
  scheduleResult : ToolOutcome
  manageExtensionsResult : ToolOutcome
  finalOutputToolDefined : Bool
  finalOutputResult : ToolOutcome
  isSubRecipeTool : String → Bool
  subRecipeResult : ToolOutcome
  readResourceResult : ToolOutcome
  listResourcesResult : ToolOutcome
  searchExtensionsResult : ToolOutcome
  subagentResult : ToolOutcome
  isFrontendTool : String → Bool
  routerSelectorAvailable : Bool
  routerSelectResult : Except String String
  extensionResult : ToolOutcome

/-- Embedding of Agent::dispatch_tool_call (agent.rs lines 227-368).  The
outer Except models the (String, Result of ToolCallResult or ToolError)
return: an error is returned for monitor rejection, a missing final-output
tool, and the router early returns.  Crucially, the branches for
manage_schedule (line 250), manage_extensions (line 270) and final_output
(line 276) return before the wrap at lines 357-367, so only the fall-through
paths pass their result through the large-response handler process. -/
def agentDispatchToolCall (env : DispatchEnv) (process : ToolOutcome → ToolOutcome)
    (toolName : String) (requestId : String) : String × Except String ToolOutcome :=
  if env.monitorRejects then
    (requestId, .error "Tool call rejected: exceeded maximum allowed repetitions")
  else if toolName = PLATFORM_MANAGE_SCHEDULE_TOOL_NAME then
    (requestId, .ok env.scheduleResult)
  else if toolName = PLATFORM_MANAGE_EXTENSIONS_TOOL_NAME then
    (requestId, .ok env.manageExtensionsResult)
  else if toolName = FINAL_OUTPUT_TOOL_NAME then
    if env.finalOutputToolDefined then (requestId, .ok env.finalOutputResult)
    else (requestId, .error "Final output tool not defined")
  else
    let inner : Except String ToolOutcome :=
      if env.isSubRecipeTool toolName then .ok env.subRecipeResult
      else if toolName = PLATFORM_READ_RESOURCE_TOOL_NAME then .ok env.readResourceResult
      else if toolName = PLATFORM_LIST_RESOURCES_TOOL_NAME then .ok env.listResourcesResult
      else if toolName = PLATFORM_SEARCH_AVAILABLE_EXTENSIONS_TOOL_NAME then
        .ok env.searchExtensionsResult
      else if toolName = SUBAGENT_RUN_TASK_TOOL_NAME then .ok env.subagentResult
      else if env.isFrontendTool toolName then
        .ok (.error "Frontend tool execution required")
      else if toolName = ROUTER_VECTOR_SEARCH_TOOL_NAME ∨
          toolName = ROUTER_LLM_SEARCH_TOOL_NAME then
        if env.routerSelectorAvailable then
          match env.routerSelectResult with
          | .ok tools => .ok (.ok tools)
          | .error e => .error ("Failed to select tools: " ++ e)
        else .error "No tool selector available"
      else .ok env.extensionResult
    match inner with
    | .error e => (requestId, .error e)
    | .ok r => (requestId, .ok (process r))

/-- Modelled from the spec: large_response_handler::process_tool_response is
not under src/; per the spec, a result larger than a configured byte budget
is truncated and a marker appended.  The budget and marker are parameters. -/
def processToolResponseModel (budget : Nat) (marker : String) : ToolOutcome → ToolOutcome
  | .ok s => if s.length > budget then .ok ((s.take budget) ++ marker) else .ok s
  | .error e => .error e

/-- Dispatch environment of the C6 counterexample: the schedule handler
returns a payload of 9 bytes against a budget of 8. -/
def envOversizedSchedule : DispatchEnv :=
  { monitorRejects := false
    scheduleResult := .ok "123456789"
    manageExtensionsResult := .error "unused"
    finalOutputToolDefined := false
    finalOutputResult := .error "unused"
    isSubRecipeTool := fun _ => false
    subRecipeResult := .error "unused"
    readResourceResult := .error "unused"
    listResourcesResult := .error "unused"
    searchExtensionsResult := .error "unused"
    subagentResult := .error "unused"
    isFrontendTool := fun _ => false
    routerSelectorAvailable := false
    routerSelectResult := .error "unused"
    extensionResult := .error "unused" }

/-- C6 counterexample: a platform__manage_schedule result of 9 bytes with a
byte budget of 8 is returned by dispatch_tool_call unchanged, even though
the large-response handler would have truncated it: the manage_schedule,
manage_extensions and final_output branches return before the handler
wrap. -/
theorem large_response_bypass_counterexample :
    agentDispatchToolCall envOversizedSchedule (processToolResponseModel 8 "[truncated]")
        PLATFORM_MANAGE_SCHEDULE_TOOL_NAME "req-1"
      = ("req-1", .ok (.ok "123456789")) ∧
    processToolResponseModel 8 "[truncated]" (.ok "123456789") ≠ .ok "123456789" := by
  constructor
  · rfl
  · intro hcon
    have : ("12345678[truncated]" : String) = "123456789" := by
      have h2 : processToolResponseModel 8 "[truncated]" (.ok "123456789")
          = .ok "12345678[truncated]" := rfl
      rw [h2] at hcon
      exact Except.ok.inj hcon
    exact absurd this (by decide)

/-- C6 (amended): the large-response handler is applied exactly on the
fall-through dispatch paths; the results of platform__manage_schedule,
platform__manage_extensions and final_output (and the repetition-rejection
error) are returned without passing through it, while a call that reaches
the extension dispatch path is returned with the handler applied. -/
theorem large_response_handler_paths (env : DispatchEnv)
    (process : ToolOutcome → ToolOutcome) (reqId other : String)
    (hmon : env.monitorRejects = false)
    (hother : other ≠ PLATFORM_MANAGE_SCHEDULE_TOOL_NAME ∧
      other ≠ PLATFORM_MANAGE_EXTENSIONS_TOOL_NAME ∧
      other ≠ FINAL_OUTPUT_TOOL_NAME ∧
      other ≠ PLATFORM_READ_RESOURCE_TOOL_NAME ∧
      other ≠ PLATFORM_LIST_RESOURCES_TOOL_NAME ∧
      other ≠ PLATFORM_SEARCH_AVAILABLE_EXTENSIONS_TOOL_NAME ∧
      other ≠ SUBAGENT_RUN_TASK_TOOL_NAME ∧
      other ≠ ROUTER_VECTOR_SEARCH_TOOL_NAME ∧
      other ≠ ROUTER_LLM_SEARCH_TOOL_NAME)
    (hsub : env.isSubRecipeTool other = false)
    (hfront : env.isFrontendTool other = false) :
    agentDispatchToolCall env process PLATFORM_MANAGE_SCHEDULE_TOOL_NAME reqId
      = (reqId, .ok env.scheduleResult) ∧
    agentDispatchToolCall env process PLATFORM_MANAGE_EXTENSIONS_TOOL_NAME reqId
      = (reqId, .ok env.manageExtensionsResult) ∧
    (env.finalOutputToolDefined = true →
      agentDispatchToolCall env process FINAL_OUTPUT_TOOL_NAME reqId
        = (reqId, .ok env.finalOutputResult)) ∧
    agentDispatchToolCall env process other reqId
      = (reqId, .ok (process env.extensionResult)) := by
  obtain ⟨h1, h2, h3, h4, h5, h6, h7, h8, h9⟩ := hother
  refine ⟨?_, ?_, ?_, ?_⟩
  · unfold agentDispatchToolCall
    rw [if_neg (by rw [hmon]; exact Bool.false_ne_true), if_pos rfl]
  · unfold agentDispatchToolCall
    rw [if_neg (by rw [hmon]; exact Bool.false_ne_true),
      if_neg (by decide), if_pos rfl]
  · intro hdef
    unfold agentDispatchToolCall
    rw [if_neg (by rw [hmon]; exact Bool.false_ne_true),
      if_neg (by decide), if_neg (by decide), if_pos rfl, if_pos hdef]
  · unfold agentDispatchToolCall
    rw [if_neg (by rw [hmon]; exact Bool.false_ne_true),
      if_neg h1, if_neg h2, if_neg h3]
    simp only [hsub, hfront, Bool.false_eq_true, if_false, if_neg h4, if_neg h5,
      if_neg h6, if_neg h7, if_neg (not_or.mpr ⟨h8, h9⟩)]

/-- Witness for C6 (amended): evaluation of the four branch equations on a
concrete environment and the tool name "calc__add". -/
theorem large_response_handler_paths_witness :
    agentDispatchToolCall envOversizedSchedule (processToolResponseModel 8 "[truncated]")
        PLATFORM_MANAGE_SCHEDULE_TOOL_NAME "w"
      = ("w", .ok (envOversizedSchedule.scheduleResult)) ∧
    agentDispatchToolCall envOversizedSchedule (processToolResponseModel 8 "[truncated]")
        "calc__add" "w"
      = ("w", .ok (processToolResponseModel 8 "[truncated]"
          envOversizedSchedule.extensionResult)) :=
  have h := large_response_handler_paths envOversizedSchedule
    (processToolResponseModel 8 "[truncated]") "w" "calc__add" rfl
    (by refine ⟨?_, ?_, ?_, ?_, ?_, ?_, ?_, ?_, ?_⟩ <;> decide)
    rfl rfl
  ⟨h.1, h.2.2.2⟩

end Goose

namespace Goose

/-- Events the reply stream yields to its caller (agent.rs AgentEvent,
lines 78-83, plus the distinguished assistant messages the loop emits). -/
inductive AgentEvent (α : Type) where
  | message (m : α)
  | hitTurnCap
  | contextLengthExceededMessage
  | errorMessage
  | mcpNotification (requestId : String)
  | modelChange
deriving DecidableEq

/-- Outcome of one loop turn as the reply loop distinguishes them (agent.rs
lines 749-1000): a context-length-exceeded provider error, another provider
error, a response without tool requests (with the optional final-output
emission), a response without tool requests while the final-output tool is
still pending, or a response with tool requests, carrying the bundled
tool-response message and the other events of the tool phase, which the
claims do not constrain. -/
inductive TurnOutcome (α : Type) where
  | contextLengthExceeded
  | providerFailure
  | noToolRequests (response : α) (finalOutput : Option α)
  | noToolsFinalPending (response : α) (continuation : α)
  | toolRequests (response : α) (toolResponses : α) (turnEvents : List (AgentEvent α))

/-- Aggregate observable result of a reply invocation: the number of
provider calls made, the events yielded, and the final history. -/
structure ReplyResult (α : Type) where
  providerCalls : Nat
  events : List (AgentEvent α)
  history : List α
deriving DecidableEq

/-- Core recursion of the reply loop (agent.rs lines 718-1004).  The source
increments turns_taken at the top of each iteration and exits with the cap
message when it exceeds max_turns; here remaining = max_turns - turns_taken
counts down to that same boundary while t is the absolute turn index the
provider outcome is indexed by.  Each non-cap iteration makes exactly one
provider call (generate_response_from_provider is not under src/ and is
modelled from the spec section 4.7 as a single Provider.complete call).
On tool turns the source pushes the response and the bundled tool-response
message onto the history (lines 957-958); on the final-output continuation
turn it pushes nothing. -/
def replyLoop {α : Type} (provider : Nat → TurnOutcome α) :
    Nat → Nat → List α → ReplyResult α
  | 0, _, history => ⟨0, [.hitTurnCap], history⟩
  | remaining + 1, t, history =>
    match provider (t + 1) with
    | .contextLengthExceeded => ⟨1, [.contextLengthExceededMessage], history⟩
    | .providerFailure => ⟨1, [.errorMessage], history⟩
    | .noToolRequests resp finalOut =>
      ⟨1, .message resp :: (match finalOut with
        | some f => [.message f]
        | none => []), history⟩
    | .noToolsFinalPending resp cont =>
      let rest := replyLoop provider remaining (t + 1) history
      ⟨1 + rest.providerCalls, [.message resp, .message cont] ++ rest.events, rest.history⟩
    | .toolRequests resp toolResp evs =>
      let rest := replyLoop provider remaining (t + 1) (history ++ [resp, toolResp])
      ⟨1 + rest.providerCalls,
        (.message resp :: evs ++ [.message toolResp]) ++ rest.events, rest.history⟩

/-- Entry point of reply (agent.rs lines 708-1005): the turn counter starts
at zero, so remaining starts at max_turns. -/
def reply {α : Type} (provider : Nat → TurnOutcome α) (maxTurns : Nat)
    (history : List α) : ReplyResult α :=
  replyLoop provider maxTurns 0 history

/-- DEFAULT_MAX_TURNS (agent.rs line 56). -/
def DEFAULT_MAX_TURNS : Nat := 1000

/-- Resolution of max_turns (agent.rs lines 711-716): the session max_turns
when set, else the GOOSE_MAX_TURNS config parameter, else the default. -/
def resolveMaxTurns (sessionMaxTurns : Option Nat) (gooseMaxTurnsParam : Option Nat) : Nat :=
  match sessionMaxTurns with
  | some v => v
  | none => gooseMaxTurnsParam.getD DEFAULT_MAX_TURNS

/-- Turn outcomes on which the loop proceeds to another iteration. -/
def turnContinues {α : Type} : TurnOutcome α → Prop
  | .noToolsFinalPending _ _ => True
  | .toolRequests _ _ _ => True
  | _ => False

theorem replyLoop_calls_le {α : Type} (provider : Nat → TurnOutcome α) :
    ∀ (remaining t : Nat) (history : List α),
    (replyLoop provider remaining t history).providerCalls ≤ remaining := by
  intro remaining
  induction remaining with
  | zero =>
    intro t history
    simp [replyLoop]
  | succ r ih =>
    intro t history
    cases hp : provider (t + 1) with
    | contextLengthExceeded => simp [replyLoop, hp]
    | providerFailure => simp [replyLoop, hp]
    | noToolRequests resp finalOut => simp [replyLoop, hp]
    | noToolsFinalPending resp cont =>
      simp only [replyLoop, hp]
      have := ih (t + 1) history
      omega
    | toolRequests resp toolResp evs =>
      simp only [replyLoop, hp]
      have := ih (t + 1) (history ++ [resp, toolResp])
      omega

theorem replyLoop_ends_with_cap {α : Type} (q : Nat → TurnOutcome α)
    (hq : ∀ n, turnContinues (q n)) :
    ∀ (remaining t : Nat) (history : List α),
    (replyLoop q remaining t history).events.getLast? = some .hitTurnCap := by
  intro remaining
  induction remaining with
  | zero =>
    intro t history
    simp [replyLoop]
  | succ r ih =>
    intro t history
    cases hp : q (t + 1) with
    | contextLengthExceeded =>
      have hcont := hq (t + 1)
      rw [hp] at hcont
      exact hcont.elim
    | providerFailure =>
      have hcont := hq (t + 1)
      rw [hp] at hcont
      exact hcont.elim
    | noToolRequests resp finalOut =>
      have hcont := hq (t + 1)
      rw [hp] at hcont
      exact hcont.elim
    | noToolsFinalPending resp cont =>
      have hrest := ih (t + 1) history
      have hne : (replyLoop q r (t + 1) history).events ≠ [] := by
        intro hnil
        rw [hnil] at hrest
        simp at hrest
      simp only [replyLoop, hp]
      rw [List.getLast?_append_of_ne_nil _ hne]
      exact hrest
    | toolRequests resp toolResp evs =>
      have hrest := ih (t + 1) (history ++ [resp, toolResp])
      have hne : (replyLoop q r (t + 1) (history ++ [resp, toolResp])).events ≠ [] := by
        intro hnil
        rw [hnil] at hrest
        simp at hrest
      simp only [replyLoop, hp]
      rw [List.getLast?_append_of_ne_nil _ hne]
      exact hrest

/-- C2: over any provider behaviour, session configuration and message
list, one reply invocation makes at most max_turns provider calls, where
max_turns is the session max_turns when set, else the GOOSE_MAX_TURNS
config parameter, else 1000; and when every turn keeps the loop running the
stream ends with the hit-cap assistant message. -/
theorem reply_provider_calls_capped (α : Type) (provider : Nat → TurnOutcome α)
    (sessionMaxTurns gooseMaxTurnsParam : Option Nat) (history : List α) :
    (reply provider (resolveMaxTurns sessionMaxTurns gooseMaxTurnsParam) history).providerCalls
      ≤ resolveMaxTurns sessionMaxTurns gooseMaxTurnsParam ∧
    (∀ v, resolveMaxTurns (some v) gooseMaxTurnsParam = v) ∧
    resolveMaxTurns none gooseMaxTurnsParam = gooseMaxTurnsParam.getD DEFAULT_MAX_TURNS ∧
    DEFAULT_MAX_TURNS = 1000 ∧
    (∀ q : Nat → TurnOutcome α, (∀ n, turnContinues (q n)) →
      (reply q (resolveMaxTurns sessionMaxTurns gooseMaxTurnsParam) history).events.getLast?
        = some AgentEvent.hitTurnCap) := by
  refine ⟨?_, fun v => rfl, rfl, rfl, ?_⟩
  · exact replyLoop_calls_le provider _ 0 history
  · intro q hq
    exact replyLoop_ends_with_cap q hq _ 0 history

/-- Witness for C2: a provider that always produces tool turns against a
session cap of 2 makes at most 2 calls and the stream ends with the cap
message. -/
theorem reply_provider_calls_capped_witness :
    (reply (fun _ => TurnOutcome.toolRequests "a" "u" []) (resolveMaxTurns (some 2) none)
        ([] : List String)).providerCalls ≤ resolveMaxTurns (some 2) none ∧
    (reply (fun _ => TurnOutcome.toolRequests "a" "u" []) (resolveMaxTurns (some 2) none)
        ([] : List String)).events.getLast? = some AgentEvent.hitTurnCap :=
  have h := reply_provider_calls_capped String (fun _ => TurnOutcome.toolRequests "a" "u" [])
    (some 2) none []
  ⟨h.1, h.2.2.2.2 (fun _ => TurnOutcome.toolRequests "a" "u" []) (fun _ => trivial)⟩

/-- C4: when the provider reports context-length-exceeded on the turn the
loop is executing, the stream emits exactly one further event, the
assistant message bearing the context-length-exceeded marker, then
terminates, and the conversation history is unchanged by that turn. -/
theorem context_length_exceeded_one_message (α : Type)
    (provider : Nat → TurnOutcome α) (remaining t : Nat) (history : List α)
    (h : provider (t + 1) = .contextLengthExceeded) :
    replyLoop provider (remaining + 1) t history
      = ⟨1, [AgentEvent.contextLengthExceededMessage], history⟩ := by
  simp [replyLoop, h]

/-- Witness for C4: a provider failing with context-length-exceeded on the
first turn yields exactly the marker message and leaves the history ["m"]
untouched. -/
theorem context_length_exceeded_one_message_witness :
    replyLoop (fun _ => TurnOutcome.contextLengthExceeded) (999 + 1) 0 ["m"]
      = ⟨1, [AgentEvent.contextLengthExceededMessage], ["m"]⟩ :=
  context_length_exceeded_one_message String (fun _ => TurnOutcome.contextLengthExceeded)
    999 0 ["m"] rfl

end Goose
